import Mathlib

/-!
Verification of the Oak language core (lexer, AST visitor, tree-walking
interpreter, builtin math registry) against its specification.

The Rust `f64` type is modelled by `F64` below: an exact-rational carrier for
finite values together with the IEEE-754 special values NaN and ±Infinity.
Finite arithmetic is modelled exactly over `ℚ` (binary64 rounding and overflow
are elided — every input exercised here is exactly representable and every
operation on such inputs is exact in binary64); the special-value rules
(NaN propagation, operations involving infinities, division by zero) follow
IEEE-754 binary64 exactly, which is what the claims under test are about.
-/

/-- Model of Rust `f64`: NaN, signed infinities (`inf true` is `-∞`), and
finite values carried exactly as rationals. The sign of zero is elided
(IEEE comparisons cannot distinguish `-0.0` from `0.0`, and no claim here
depends on the sign of a zero or of an infinity produced from one). -/
inductive F64 where
  | nan : F64
  | inf : Bool → F64
  | finite : ℚ → F64
deriving DecidableEq

namespace F64

/-- IEEE-754 addition on the model. -/
def add : F64 → F64 → F64
  | nan, _ => nan
  | _, nan => nan
  | inf s, inf t => if s = t then inf s else nan
  | inf s, finite _ => inf s
  | finite _, inf t => inf t
  | finite a, finite b => finite (a + b)

/-- IEEE-754 subtraction on the model. -/
def sub : F64 → F64 → F64
  | nan, _ => nan
  | _, nan => nan
  | inf s, inf t => if s = t then nan else inf s
  | inf s, finite _ => inf s
  | finite _, inf t => inf (!t)
  | finite a, finite b => finite (a - b)

/-- IEEE-754 multiplication on the model. -/
def mul : F64 → F64 → F64
  | nan, _ => nan
  | _, nan => nan
  | inf s, inf t => inf (xor s t)
  | inf s, finite b => if b = 0 then nan else inf (xor s (decide (b < 0)))
  | finite a, inf t => if a = 0 then nan else inf (xor (decide (a < 0)) t)
  | finite a, finite b => finite (a * b)

/-- IEEE-754 division on the model: `0/0` and `∞/∞` are NaN, a nonzero
finite value divided by zero is a signed infinity, anything finite divided
by an infinity is zero. -/
def div : F64 → F64 → F64
  | nan, _ => nan
  | _, nan => nan
  | inf _, inf _ => nan
  | inf s, finite b => inf (xor s (decide (b < 0)))
  | finite _, inf _ => finite 0
  | finite a, finite b =>
    if b = 0 then (if a = 0 then nan else inf (decide (a < 0)))
    else finite (a / b)

/-- IEEE-754 `<`: NaN is incomparable to everything. -/
def lt : F64 → F64 → Bool
  | nan, _ => false
  | _, nan => false
  | inf true, inf true => false
  | inf true, _ => true
  | inf false, _ => false
  | finite _, inf t => !t
  | finite a, finite b => decide (a < b)

/-- IEEE-754 `<=`: NaN is incomparable to everything. -/
def le : F64 → F64 → Bool
  | nan, _ => false
  | _, nan => false
  | inf true, _ => true
  | inf false, inf false => true
  | inf false, _ => false
  | finite _, inf t => !t
  | finite a, finite b => decide (a ≤ b)

/-- `f64::abs`. -/
def abs : F64 → F64
  | nan => nan
  | inf _ => inf false
  | finite a => finite |a|

end F64

/-- `f64::EPSILON` = 2⁻⁵². -/
def epsF64 : F64 := F64.finite (1 / 2 ^ 52)

/-- `std::f64::consts::PI`, the binary64 value nearest π. -/
def piF64 : F64 := F64.finite (884279719003555 / 2 ^ 48)

/-- `std::f64::consts::E`, the binary64 value nearest e. -/
def eF64 : F64 := F64.finite (6121026514868073 / 2 ^ 51)

/-- The binary64 value nearest π/2 (exactly half of `piF64`). -/
def piHalfF64 : F64 := F64.finite (884279719003555 / 2 ^ 49)

/-- The external binary64 primitives from the Rust standard library
(`f64::sin`, `f64::cos`, `f64::tan`, `f64::sqrt`, `f64::ln`, `f64::exp`).
They are not code of this repository, so `MathModule` is parameterized over
them; theorems that need a concrete fact about one of them (for example
that IEEE square root is correctly rounded, so `sqrt 4 = 2`) take that fact
as an explicit hypothesis. -/
structure Intrinsics where
  sin : F64 → F64
  cos : F64 → F64
  tan : F64 → F64
  sqrt : F64 → F64
  ln : F64 → F64
  exp : F64 → F64

/-! ### `src/math/mod.rs` — the `MathModule` wrappers and the registries -/

namespace MathModule

/-- `MathModule::sin`. -/
def sin (I : Intrinsics) (x : F64) : F64 := I.sin x

/-- `MathModule::cos`. -/
def cos (I : Intrinsics) (x : F64) : F64 := I.cos x

/-- `MathModule::tan`: NaN when `cos x` is within `f64::EPSILON` of zero,
otherwise the `f64::tan` primitive. -/
def tan (I : Intrinsics) (x : F64) : F64 :=
  let cos_val := I.cos x
  if F64.lt cos_val.abs epsF64 then F64.nan else I.tan x

/-- `MathModule::sqrt`: NaN for negative arguments, otherwise the
`f64::sqrt` primitive. -/
def sqrt (I : Intrinsics) (x : F64) : F64 :=
  if F64.lt x (F64.finite 0) then F64.nan else I.sqrt x

/-- `MathModule::log`: NaN for non-positive arguments, otherwise the
`f64::ln` primitive. -/
def log (I : Intrinsics) (x : F64) : F64 :=
  if F64.le x (F64.finite 0) then F64.nan else I.ln x

/-- `MathModule::exp`. -/
def exp (I : Intrinsics) (x : F64) : F64 := I.exp x

/-- `MathModule::abs`. -/
def abs (x : F64) : F64 := x.abs

/-- `MathModule::to_radians`: `degrees * PI / 180.0`. -/
def to_radians (degrees : F64) : F64 :=
  F64.div (F64.mul degrees piF64) (F64.finite 180)

/-- `MathModule::to_degrees`: `radians * 180.0 / PI`. -/
def to_degrees (radians : F64) : F64 :=
  F64.div (F64.mul radians (F64.finite 180)) piF64

end MathModule

/-- `get_math_functions`: the immutable name → unary-function registry. The
Rust `HashMap` is modelled as a lookup function (it is built once in
`Interpreter::new` and only ever read). -/
def get_math_functions (I : Intrinsics) : String → Option (F64 → F64) :=
  fun name =>
    if name = "sin" then some (MathModule.sin I)
    else if name = "cos" then some (MathModule.cos I)
    else if name = "tan" then some (MathModule.tan I)
    else if name = "sqrt" then some (MathModule.sqrt I)
    else if name = "log" then some (MathModule.log I)
    else if name = "exp" then some (MathModule.exp I)
    else if name = "abs" then some MathModule.abs
    else if name = "to_radians" then some MathModule.to_radians
    else if name = "to_degrees" then some MathModule.to_degrees
    else none

/-- `get_math_constants`: the immutable name → constant registry. -/
def get_math_constants : String → Option F64 :=
  fun name =>
    if name = "PI" then some piF64
    else if name = "E" then some eF64
    else none

/-! ### `src/tokenizer/mod.rs` — the lexer -/

/-- The `Token` enum. -/
inductive Token where
  | Var : Token
  | Identifier : String → Token
  | Assign : Token
  | Number : F64 → Token
  | StringLiteral : String → Token
  | Operator : String → Token
  | BeginSection : String → Token
  | EndSection : String → Token
  | Comment : String → Token
  | Unknown : String → Token
deriving DecidableEq

/-- Numeric value of a digit run, most significant first (the usual
left-to-right accumulation performed by decimal parsing). -/
def digitsVal (ds : List Char) : ℕ :=
  ds.foldl (fun a c => 10 * a + (c.toNat - 48)) 0

/-- Exact rational value of a digits-and-one-dot run such as `12.5`. -/
def ratOfRun (cs : List Char) : ℚ :=
  let intPart := cs.takeWhile (fun x => x ≠ '.')
  let frac := (cs.dropWhile (fun x => x ≠ '.')).tail
  (digitsVal intPart : ℚ) + (digitsVal frac : ℚ) / (10 : ℚ) ^ frac.length

/-- Model of Rust `str::parse::<f64>()` restricted to the strings the lexer
feeds it: runs of ASCII digits and dots beginning with a digit. Such a run
is grammatical for Rust's float parser exactly when it holds at most one
dot; its value is modelled exactly as a rational (binary64 rounding of the
parsed literal is elided). -/
def parseF64 (cs : List Char) : Option F64 :=
  if cs.count '.' ≤ 1 then some (F64.finite (ratOfRun cs)) else none

/-- Whether a character continues a numeric run: `is_ascii_digit(c) || c == '.'`. -/
def isNumChar (c : Char) : Bool := c.isDigit || c = '.'

/-- Whether a character continues an identifier:
`is_ascii_alphanumeric(c) || c == '_'`. -/
def isIdentChar (c : Char) : Bool := c.isAlphanum || c = '_'

/-- The body of `tokenize`'s scanning loop, on the remaining characters.
Each arm mirrors one arm of the Rust `match` on the cursor character, in
the same order: whitespace, `:=`, single-character operators, string
literals, numeric runs, identifier runs, and the catch-all `Unknown`.
A `:` not followed by `=` fails the guarded `:=` arm and reaches the
catch-all, exactly as in the source. -/
def tokenizeAux : List Char → List Token
  | [] => []
  | c :: rest =>
    if c.isWhitespace then tokenizeAux rest
    else if c = ':' ∧ rest.head? = some '=' then
      Token.Assign :: tokenizeAux rest.tail
    else if c = '+' ∨ c = '-' ∨ c = '*' ∨ c = '/' ∨ c = '%' ∨ c = '^' then
      Token.Operator (String.mk [c]) :: tokenizeAux rest
    else if c = '"' then
      let lit := rest.takeWhile (fun x => x ≠ '"')
      Token.StringLiteral (String.mk lit)
        :: tokenizeAux ((rest.dropWhile (fun x => x ≠ '"')).tail)
    else if c.isDigit then
      let run := c :: rest.takeWhile isNumChar
      (match parseF64 run with
       | some v => Token.Number v
       | none => Token.Unknown (String.mk run))
        :: tokenizeAux (rest.dropWhile isNumChar)
    else if c.isAlpha then
      let run := c :: rest.takeWhile isIdentChar
      (if String.mk run = "var" then Token.Var
       else Token.Identifier (String.mk run))
        :: tokenizeAux (rest.dropWhile isIdentChar)
    else
      Token.Unknown (String.mk [c]) :: tokenizeAux rest
termination_by cs => cs.length
decreasing_by
  all_goals simp_wf
  all_goals
    first
      | omega
      | exact Nat.lt_succ_of_le (List.tail_sublist rest).length_le
      | exact Nat.lt_succ_of_le (List.dropWhile_sublist _).length_le
      | exact Nat.lt_succ_of_le
          (Nat.le_trans (Nat.sub_le _ _) (List.dropWhile_sublist _).length_le)

/-- `tokenize`. -/
def tokenize (source : String) : List Token := tokenizeAux source.toList

/-! ### `src/parser/mod.rs` — values and the closed node set -/

/-- The `Value` enum returned by every evaluation rule. -/
inductive Value where
  | Number : F64 → Value
  | String : String → Value
  | None : Value
deriving DecidableEq

/-- The closed set of node shapes behind the `Node` trait: one constructor
per concrete node struct (`EvalMathExp`, `BinOp`, `Number`, `Var`, `Assign`,
`StringLiteral`, `FunctionCall`, `Comment`), each carrying the fields of the
corresponding struct. -/
inductive Node where
  | EvalMathExp : String → Node
  | BinOp : Node → String → Node → Node
  | Number : F64 → Node
  | Var : String → Node
  | Assign : String → Node → Node
  | StringLiteral : String → Node
  | FunctionCall : String → List Node → Node
  | Comment : String → Node

/-! ### `src/interpreter/mod.rs` — the tree-walking interpreter

The `Interpreter` struct holds the mutable `variables: HashMap<String, f64>`
and the two registries built once by `Interpreter::new` and only ever read
(`math_functions = get_math_functions()`, `math_constants =
get_math_constants()`). The mutable part is modelled as an explicit
environment threaded through evaluation; the registries, being immutable for
the whole life of the interpreter, are referenced directly as
`get_math_functions I` and `get_math_constants`. -/

/-- The `variables` map of the `Interpreter` struct, modelled as a lookup
function (`HashMap::get`); `Interpreter::new` starts it empty. -/
abbrev Env := String → Option F64

/-- The empty `variables` map produced by `Interpreter::new`. -/
def emptyEnv : Env := fun _ => Option.none

/-- `HashMap::insert`: bind `name` to `num`, overwriting any prior binding. -/
def envInsert (env : Env) (name : String) (num : F64) : Env :=
  fun n => if n = name then some num else env n

mutual

/-- `Node::accept` dispatching into the `Visitor` impl of `Interpreter`:
each arm is the matching `visit_*` method, returning the `Value` and the
updated variable environment. `println!` diagnostics have no effect on
either and are dropped. -/
def Node.accept (I : Intrinsics) : Node → Env → Value × Env
  | .EvalMathExp _, env => (Value.None, env)
  | .BinOp left op right, env =>
    let lr := Node.accept I left env
    let rr := Node.accept I right lr.2
    match lr.1, rr.1 with
    | Value.Number l, Value.Number r =>
      (match op with
       | "+" => (Value.Number (F64.add l r), rr.2)
       | "-" => (Value.Number (F64.sub l r), rr.2)
       | "*" => (Value.Number (F64.mul l r), rr.2)
       | "/" => (Value.Number (F64.div l r), rr.2)
       | _ => (Value.None, rr.2))
    | _, _ => (Value.None, rr.2)
  | .Number v, env => (Value.Number v, env)
  | .Var name, env =>
    match get_math_constants name with
    | some constant_value => (Value.Number constant_value, env)
    | Option.none =>
      match env name with
      | some val => (Value.Number val, env)
      | Option.none => (Value.None, env)
  | .Assign name expr, env =>
    let vr := Node.accept I expr env
    match vr.1 with
    | Value.Number num => (Value.Number num, envInsert vr.2 name num)
    | _ => (Value.None, vr.2)
  | .StringLiteral v, env => (Value.String v, env)
  | .FunctionCall name args, env =>
    match get_math_functions I name with
    | some math_func =>
      -- `visit_function_call` requires `args.len() == 1` and then evaluates
      -- `args[0]`; a list is a singleton exactly when its length is 1.
      match args with
      | [arg] =>
        let ar := Node.accept I arg env
        match ar.1 with
        | Value.Number x => (Value.Number (math_func x), ar.2)
        | _ => (Value.None, ar.2)
      | _ => (Value.None, env)
    | Option.none => (Value.None, Node.acceptList I args env)
  | .Comment _, env => (Value.None, env)

/-- The `for arg in &node.args { arg.accept(self); }` loop of
`visit_function_call`: evaluate every argument left to right, keeping only
the environment. -/
def Node.acceptList (I : Intrinsics) : List Node → Env → Env
  | [], env => env
  | a :: rest, env => Node.acceptList I rest (Node.accept I a env).2

end

/-- Reference instantiation of the external binary64 primitives, used to
instantiate theorems that are parameterized over `Intrinsics`. It agrees
with the Rust standard library functions at every sample point the
witnesses below evaluate (`sqrt 0 = 0`, `sqrt 4 = 2`, `ln 1 = 0`,
`exp 0 = 1`, `cos 0 = 1`, `tan 0 = 0`, and `cos` of the float nearest π/2
is a positive subnormal-of-the-result magnitude well below
`f64::EPSILON`). -/
def refIntrinsics : Intrinsics where
  sin := fun _ => F64.finite 0
  cos := fun x =>
    if x = piHalfF64 then F64.finite (1 / 2 ^ 54)
    else if x = F64.finite 0 then F64.finite 1
    else F64.finite 0
  tan := fun x => if x = F64.finite 0 then F64.finite 0 else F64.nan
  sqrt := fun x =>
    if x = F64.finite 4 then F64.finite 2
    else if x = F64.finite 0 then F64.finite 0
    else F64.nan
  ln := fun x => if x = F64.finite 1 then F64.finite 0 else F64.nan
  exp := fun x => if x = F64.finite 0 then F64.finite 1 else F64.nan

/-- `Node.acceptList` is the left fold of single-node evaluation over the
argument list: arguments are evaluated strictly left to right, each in the
environment produced by the previous one. -/
theorem acceptList_eq_foldl (I : Intrinsics) (args : List Node) (env : Env) :
    Node.acceptList I args env
      = args.foldl (fun t a => (Node.accept I a t).2) env := by
  induction args generalizing env with
  | nil => rfl
  | cons a rest ih => simp [Node.acceptList, ih]

/-! ### The claims -/

/-- C1: for operand subtrees that evaluate to `Number a` and `Number b`
(the right one in the environment the left one produced), each operator in
`{+,-,*,/}` yields `Number` of the corresponding IEEE-754 binary64
operation — never `Empty`; in particular division of any value by the
float zero is an infinity or NaN, still wrapped in `Number`. -/
theorem visit_bin_op_on_numbers (I : Intrinsics) (l r : Node)
    (env env1 env2 : Env) (a b : F64)
    (hl : Node.accept I l env = (Value.Number a, env1))
    (hr : Node.accept I r env1 = (Value.Number b, env2)) :
    Node.accept I (.BinOp l "+" r) env = (Value.Number (F64.add a b), env2)
    ∧ Node.accept I (.BinOp l "-" r) env = (Value.Number (F64.sub a b), env2)
    ∧ Node.accept I (.BinOp l "*" r) env = (Value.Number (F64.mul a b), env2)
    ∧ Node.accept I (.BinOp l "/" r) env = (Value.Number (F64.div a b), env2)
    ∧ (∀ x : F64, F64.div x (F64.finite 0) = F64.nan
        ∨ F64.div x (F64.finite 0) = F64.inf false
        ∨ F64.div x (F64.finite 0) = F64.inf true) := by
  refine ⟨?_, ?_, ?_, ?_, ?_⟩
  · simp [Node.accept, hl, hr]
  · simp [Node.accept, hl, hr]
  · simp [Node.accept, hl, hr]
  · simp [Node.accept, hl, hr]
  · intro x
    match x with
    | F64.nan => exact Or.inl rfl
    | F64.inf s => cases s <;> simp [F64.div]
    | F64.finite q =>
      by_cases hq : q = 0
      · exact Or.inl (by simp [F64.div, hq])
      · rcases Bool.eq_false_or_eq_true (decide (q < 0)) with hs | hs
        · exact Or.inr (Or.inr (by simp [F64.div, hq, hs]))
        · exact Or.inr (Or.inl (by simp [F64.div, hq, hs]))

/-- Witness for C1 at `l = 3`, `r = 4` in the empty environment. -/
theorem visit_bin_op_on_numbers_witness :
    Node.accept refIntrinsics
        (.BinOp (.Number (F64.finite 3)) "+" (.Number (F64.finite 4))) emptyEnv
      = (Value.Number (F64.add (F64.finite 3) (F64.finite 4)), emptyEnv) := by
  exact (visit_bin_op_on_numbers refIntrinsics
    (.Number (F64.finite 3)) (.Number (F64.finite 4))
    emptyEnv emptyEnv emptyEnv (F64.finite 3) (F64.finite 4)
    (by simp [Node.accept]) (by simp [Node.accept])).1

/-- C2 counterexample: the claim fails as stated for the builtin constant
name "PI": assigning `1.0` to "PI" and immediately referencing "PI" yields
`Number π` (the registered constant), not `Number 1.0`, because constant
lookup precedes variable lookup. -/
theorem assign_then_var_at_PI_counterexample :
    (Node.accept refIntrinsics (.Var "PI")
        (Node.accept refIntrinsics
          (.Assign "PI" (.Number (F64.finite 1))) emptyEnv).2).1
      ≠ Value.Number (F64.finite 1) := by
  simp [Node.accept, get_math_constants, envInsert, emptyEnv, piF64]
  norm_num

/-- C2 (amended to names that are not registered builtin constants):
assigning `NumberLiteral v` to such a name and immediately referencing it
returns `Number v`, and referencing such a name while it has no binding
returns `Empty`. -/
theorem assign_then_var_nonconstant (I : Intrinsics) (name : String)
    (v : F64) (env : Env)
    (hconst : get_math_constants name = Option.none) :
    (Node.accept I (.Var name)
        (Node.accept I (.Assign name (.Number v)) env).2).1 = Value.Number v
    ∧ (env name = Option.none →
        (Node.accept I (.Var name) env).1 = Value.None) := by
  constructor
  · simp [Node.accept, hconst, envInsert]
  · intro hmiss
    simp [Node.accept, hconst, hmiss]

/-- Witness for C2's amended claim at `name = "x"`, `v = 1`, the empty
environment. -/
theorem assign_then_var_nonconstant_witness :
    (Node.accept refIntrinsics (.Var "x")
        (Node.accept refIntrinsics
          (.Assign "x" (.Number (F64.finite 1))) emptyEnv).2).1
      = Value.Number (F64.finite 1)
    ∧ (Node.accept refIntrinsics (.Var "x") emptyEnv).1 = Value.None := by
  have h := assign_then_var_nonconstant refIntrinsics "x" (F64.finite 1)
    emptyEnv (by simp [get_math_constants])
  exact ⟨h.1, h.2 rfl⟩

/-- C3: in every evaluator state (hence in every state reachable by any
sequence of evaluations, the state being exactly the variable environment),
referencing "PI" or "E" returns the registered constant — in particular
immediately after an `Assignment` to the same name, for any assigned
expression: constant lookup precedes variable lookup, so the builtin
constants can never be shadowed. -/
theorem constants_never_shadowed (I : Intrinsics) (env : Env) (e : Node) :
    (Node.accept I (.Var "PI") env).1 = Value.Number piF64
    ∧ (Node.accept I (.Var "E") env).1 = Value.Number eF64
    ∧ (Node.accept I (.Var "PI")
        (Node.accept I (.Assign "PI" e) env).2).1 = Value.Number piF64
    ∧ (Node.accept I (.Var "E")
        (Node.accept I (.Assign "E" e) env).2).1 = Value.Number eF64 := by
  refine ⟨?_, ?_, ?_, ?_⟩ <;> simp [Node.accept, get_math_constants]

/-- C4: `Assignment(name, expr)` first evaluates `expr`; if that yields
`Number num`, the binding of `name` is set to `num` (overwriting any prior
binding), every other name keeps the binding it had after `expr`'s
evaluation, and the assignment returns `Number num`; if `expr` yields
anything other than a `Number`, the environment is exactly the one `expr`'s
evaluation produced (the assignment itself touches nothing) and the result
is `Empty`. -/
theorem visit_assign_spec (I : Intrinsics) (name : String) (expr : Node)
    (env : Env) :
    (∀ num : F64, (Node.accept I expr env).1 = Value.Number num →
      (Node.accept I (.Assign name expr) env).1 = Value.Number num
      ∧ (Node.accept I (.Assign name expr) env).2 name = some num
      ∧ ∀ m : String, m ≠ name →
          (Node.accept I (.Assign name expr) env).2 m
            = (Node.accept I expr env).2 m)
    ∧ ((∀ num : F64, (Node.accept I expr env).1 ≠ Value.Number num) →
      Node.accept I (.Assign name expr) env
        = (Value.None, (Node.accept I expr env).2)) := by
  constructor
  · intro num hnum
    refine ⟨?_, ?_, ?_⟩
    · simp [Node.accept, hnum]
    · simp [Node.accept, hnum, envInsert]
    · intro m hm
      simp [Node.accept, hnum, envInsert, hm]
  · intro hno
    have : Node.accept I (.Assign name expr) env
        = (match (Node.accept I expr env).1 with
           | Value.Number num =>
             (Value.Number num, envInsert (Node.accept I expr env).2 name num)
           | _ => (Value.None, (Node.accept I expr env).2)) := by
      simp [Node.accept]
    rw [this]
    match h : (Node.accept I expr env).1 with
    | Value.Number num => exact absurd h (hno num)
    | Value.String s => rfl
    | Value.None => rfl

/-- Witness for C4: the `Number` case at `Assignment("x", 1)` and the
non-`Number` case at `Assignment("y", StringLiteral "s")`, both in the
empty environment. -/
theorem visit_assign_spec_witness :
    (Node.accept refIntrinsics
        (.Assign "x" (.Number (F64.finite 1))) emptyEnv).1
      = Value.Number (F64.finite 1)
    ∧ (Node.accept refIntrinsics
        (.Assign "x" (.Number (F64.finite 1))) emptyEnv).2 "x"
      = some (F64.finite 1)
    ∧ Node.accept refIntrinsics
        (.Assign "y" (.StringLiteral "s")) emptyEnv
      = (Value.None, emptyEnv) := by
  have h1 := (visit_assign_spec refIntrinsics "x"
    (.Number (F64.finite 1)) emptyEnv).1 (F64.finite 1) (by simp [Node.accept])
  have h2 := (visit_assign_spec refIntrinsics "y"
    (.StringLiteral "s") emptyEnv).2 (by simp [Node.accept])
  refine ⟨h1.1, h1.2.1, ?_⟩
  have he : (Node.accept refIntrinsics (.StringLiteral "s") emptyEnv).2
      = emptyEnv := by simp [Node.accept]
  rw [h2, he]

/-- C5: calling a registered builtin with zero arguments or with two or
more returns `Empty` with the state exactly as it was — no argument
subtree is evaluated, so nested assignments in the arguments take no
effect on the environment. -/
theorem builtin_call_wrong_arity (I : Intrinsics) (name : String)
    (f : F64 → F64) (args : List Node) (env : Env)
    (hf : get_math_functions I name = some f)
    (hlen : args.length ≠ 1) :
    Node.accept I (.FunctionCall name args) env = (Value.None, env) := by
  match args with
  | [] => simp [Node.accept, hf]
  | [a] => exact absurd rfl hlen
  | a :: b :: rest => simp [Node.accept, hf]

/-- Witness for C5: `sin` called with zero arguments and with two
arguments, the second containing a nested assignment that is not
performed. -/
theorem builtin_call_wrong_arity_witness :
    Node.accept refIntrinsics (.FunctionCall "sin" []) emptyEnv
      = (Value.None, emptyEnv)
    ∧ Node.accept refIntrinsics
        (.FunctionCall "sin"
          [.Number (F64.finite 1), .Assign "x" (.Number (F64.finite 2))])
        emptyEnv
      = (Value.None, emptyEnv) := by
  constructor
  · exact builtin_call_wrong_arity refIntrinsics "sin" (MathModule.sin refIntrinsics)
      [] emptyEnv (by simp [get_math_functions]) (by simp)
  · exact builtin_call_wrong_arity refIntrinsics "sin" (MathModule.sin refIntrinsics)
      [.Number (F64.finite 1), .Assign "x" (.Number (F64.finite 2))] emptyEnv
      (by simp [get_math_functions]) (by simp)

/-- C6: calling a name that matches no registered builtin evaluates every
argument subtree left to right — each in the environment produced by the
previous one, so nested assignments take effect — and the call itself
returns `Empty`. -/
theorem unknown_function_call_evaluates_args (I : Intrinsics) (name : String)
    (args : List Node) (env : Env)
    (hf : get_math_functions I name = Option.none) :
    Node.accept I (.FunctionCall name args) env
      = (Value.None, args.foldl (fun t a => (Node.accept I a t).2) env) := by
  have : Node.accept I (.FunctionCall name args) env
      = (Value.None, Node.acceptList I args env) := by
    simp [Node.accept, hf]
  rw [this, acceptList_eq_foldl]

/-- Witness for C6: `unknown_fn` called with a nested assignment argument;
the call returns `Empty` and the assignment has taken effect. -/
theorem unknown_function_call_evaluates_args_witness :
    Node.accept refIntrinsics
        (.FunctionCall "unknown_fn" [.Assign "x" (.Number (F64.finite 2))])
        emptyEnv
      = (Value.None,
          [Node.Assign "x" (.Number (F64.finite 2))].foldl
            (fun t a => (Node.accept refIntrinsics a t).2) emptyEnv)
    ∧ ([Node.Assign "x" (.Number (F64.finite 2))].foldl
        (fun t a => (Node.accept refIntrinsics a t).2) emptyEnv) "x"
      = some (F64.finite 2) := by
  constructor
  · exact unknown_function_call_evaluates_args refIntrinsics "unknown_fn"
      [.Assign "x" (.Number (F64.finite 2))] emptyEnv
      (by simp [get_math_functions])
  · simp [Node.accept, envInsert]

/-- C7: `BinaryOperation(l, op, r)` always evaluates `l` first and then `r`
in the state `l` produced (no short-circuiting — the final state is the one
`r`'s evaluation produced even when `l` did not yield a `Number`), and the
result is `Empty` whenever either operand's value is not a `Number` or `op`
is none of `+`, `-`, `*`, `/`. -/
theorem visit_bin_op_strict (I : Intrinsics) (l r : Node) (op : String)
    (env : Env) :
    (Node.accept I (.BinOp l op r) env).2
      = (Node.accept I r (Node.accept I l env).2).2
    ∧ ((∀ x : F64, (Node.accept I l env).1 ≠ Value.Number x) →
        (Node.accept I (.BinOp l op r) env).1 = Value.None)
    ∧ ((∀ x : F64, (Node.accept I r (Node.accept I l env).2).1
          ≠ Value.Number x) →
        (Node.accept I (.BinOp l op r) env).1 = Value.None)
    ∧ (op ≠ "+" → op ≠ "-" → op ≠ "*" → op ≠ "/" →
        (Node.accept I (.BinOp l op r) env).1 = Value.None) := by
  have hacc : Node.accept I (.BinOp l op r) env
      = (match (Node.accept I l env).1,
               (Node.accept I r (Node.accept I l env).2).1 with
         | Value.Number a, Value.Number b =>
           (match op with
            | "+" => (Value.Number (F64.add a b),
                (Node.accept I r (Node.accept I l env).2).2)
            | "-" => (Value.Number (F64.sub a b),
                (Node.accept I r (Node.accept I l env).2).2)
            | "*" => (Value.Number (F64.mul a b),
                (Node.accept I r (Node.accept I l env).2).2)
            | "/" => (Value.Number (F64.div a b),
                (Node.accept I r (Node.accept I l env).2).2)
            | _ => (Value.None, (Node.accept I r (Node.accept I l env).2).2))
         | _, _ => (Value.None, (Node.accept I r (Node.accept I l env).2).2))
      := by
    simp [Node.accept]
  refine ⟨?_, ?_, ?_, ?_⟩
  · rw [hacc]
    split
    · split <;> rfl
    · rfl
  · intro hno
    rw [hacc]
    split
    · rename_i a b ha hb
      exact absurd ha (hno a)
    · rfl
  · intro hno
    rw [hacc]
    split
    · rename_i a b ha hb
      exact absurd hb (hno b)
    · rfl
  · intro h1 h2 h3 h4
    rw [hacc]
    split
    · split
      · exact absurd rfl h1
      · exact absurd rfl h2
      · exact absurd rfl h3
      · exact absurd rfl h4
      · rfl
    · rfl

/-- Witness for C7: a string literal on the left does not stop the nested
assignment on the right from taking effect, and the result is `Empty`;
likewise the unrecognized operator `%` on two numbers yields `Empty`. -/
theorem visit_bin_op_strict_witness :
    (Node.accept refIntrinsics
        (.BinOp (.StringLiteral "s") "+" (.Assign "x" (.Number (F64.finite 2))))
        emptyEnv).1 = Value.None
    ∧ (Node.accept refIntrinsics
        (.BinOp (.StringLiteral "s") "+" (.Assign "x" (.Number (F64.finite 2))))
        emptyEnv).2 "x" = some (F64.finite 2)
    ∧ (Node.accept refIntrinsics
        (.BinOp (.Number (F64.finite 1)) "%" (.Number (F64.finite 2)))
        emptyEnv).1 = Value.None := by
  have h := visit_bin_op_strict refIntrinsics (.StringLiteral "s")
    (.Assign "x" (.Number (F64.finite 2))) "+" emptyEnv
  have h2 := visit_bin_op_strict refIntrinsics (.Number (F64.finite 1))
    (.Number (F64.finite 2)) "%" emptyEnv
  refine ⟨h.2.1 (by simp [Node.accept]), ?_, ?_⟩
  · rw [h.1]
    simp [Node.accept, envInsert]
  · exact h2.2.2.2 (by simp) (by simp) (by simp) (by simp)

/-- An ASCII-alphabetic character has code 65–90 or 97–122. -/
theorem alpha_toNat_bounds (c : Char) (h : c.isAlpha = true) :
    (65 ≤ c.toNat ∧ c.toNat ≤ 90) ∨ (97 ≤ c.toNat ∧ c.toNat ≤ 122) := by
  simp only [Char.isAlpha, Char.isUpper, Char.isLower, Char.le_def,
    Bool.or_eq_true, Bool.and_eq_true, decide_eq_true_eq] at h
  simp only [Char.toNat]
  rcases h with ⟨h1, h2⟩ | ⟨h1, h2⟩
  · exact Or.inl ⟨h1, h2⟩
  · exact Or.inr ⟨h1, h2⟩

/-- An ASCII-digit character has code 48–57. -/
theorem digit_toNat_bounds (c : Char) (h : c.isDigit = true) :
    48 ≤ c.toNat ∧ c.toNat ≤ 57 := by
  simp only [Char.isDigit, Char.le_def, Bool.and_eq_true,
    decide_eq_true_eq] at h
  exact h

/-- An alphabetic character is not whitespace. -/
theorem alpha_not_whitespace (c : Char) (h : c.isAlpha = true) :
    c.isWhitespace = false := by
  cases hw : c.isWhitespace with
  | false => rfl
  | true =>
    exfalso
    simp only [Char.isWhitespace, Bool.or_eq_true, decide_eq_true_eq] at hw
    rcases hw with ((rfl | rfl) | rfl) | rfl <;> exact absurd h (by decide)

/-- An alphabetic character is not a digit. -/
theorem alpha_not_digit (c : Char) (h : c.isAlpha = true) :
    c.isDigit = false := by
  cases hd : c.isDigit with
  | false => rfl
  | true =>
    exfalso
    have hA := alpha_toNat_bounds c h
    have hD := digit_toNat_bounds c hd
    omega

/-- C8: whenever the lexer's cursor reaches an alphabetic character, it
emits exactly one token covering the maximal run of alphanumeric or
underscore characters starting there — `Var` (the `DeclKeyword`) if that
run is exactly "var", otherwise `Identifier` carrying the run — and
resumes immediately after the run. -/
theorem tokenize_identifier_run (c : Char) (cs : List Char)
    (h : c.isAlpha = true) :
    tokenizeAux (c :: cs)
      = (if String.mk ((c :: cs).takeWhile isIdentChar) = "var" then Token.Var
         else Token.Identifier (String.mk ((c :: cs).takeWhile isIdentChar)))
        :: tokenizeAux ((c :: cs).dropWhile isIdentChar) := by
  have hw := alpha_not_whitespace c h
  have hd := alpha_not_digit c h
  have hcolon : ¬(c = ':' ∧ cs.head? = some '=') := by
    rintro ⟨rfl, -⟩
    exact absurd h (by decide)
  have hop : ¬(c = '+' ∨ c = '-' ∨ c = '*' ∨ c = '/' ∨ c = '%' ∨ c = '^') := by
    rintro (rfl | rfl | rfl | rfl | rfl | rfl) <;> exact absurd h (by decide)
  have hquote : ¬(c = '"') := by
    rintro rfl
    exact absurd h (by decide)
  have hid : isIdentChar c = true := by
    simp [isIdentChar, Char.isAlphanum, h]
  rw [tokenizeAux]
  simp only [hw, hd, h, hcolon, hop, hquote, Bool.false_eq_true,
    if_false, if_true, ite_false, ite_true]
  rw [List.takeWhile_cons_of_pos hid, List.dropWhile_cons_of_pos hid]

/-- Witness for C8 at the text `var x`: the runs `var` and `x` become
`Var` (the declaration keyword) and `Identifier "x"`. -/
theorem tokenize_identifier_run_witness :
    tokenizeAux ('v' :: "ar x".toList)
      = (if String.mk (('v' :: "ar x".toList).takeWhile isIdentChar) = "var"
         then Token.Var
         else Token.Identifier
           (String.mk (('v' :: "ar x".toList).takeWhile isIdentChar)))
        :: tokenizeAux (('v' :: "ar x".toList).dropWhile isIdentChar)
    ∧ tokenize "var x" = [Token.Var, Token.Identifier "x"] := by
  constructor
  · exact tokenize_identifier_run 'v' "ar x".toList (by decide)
  · simp [tokenize, tokenizeAux, isIdentChar, String.mk]

/-- C9: the builtin math wrappers implement the spec's domain policy. The
hypotheses are the facts about the external binary64 primitives that
IEEE-754 (square root is correctly rounded) and every real libm guarantee
at the sample points: `sqrt 0 = 0`, `sqrt 4 = 2`, `ln 1 = 0`, `exp 0 = 1`,
`cos 0 = 1`, `tan 0 = 0`. Conclusions: `sqrt` is NaN on every negative
argument, `log` is NaN on every non-positive argument, `tan` is NaN
whenever `|cos x|` is below `f64::EPSILON` (so in particular at the float
nearest π/2, whose cosine is below epsilon), and the listed exact values
hold. -/
theorem math_domain_policy (I : Intrinsics)
    (hs0 : I.sqrt (F64.finite 0) = F64.finite 0)
    (hs4 : I.sqrt (F64.finite 4) = F64.finite 2)
    (hl1 : I.ln (F64.finite 1) = F64.finite 0)
    (he0 : I.exp (F64.finite 0) = F64.finite 1)
    (hc0 : I.cos (F64.finite 0) = F64.finite 1)
    (ht0 : I.tan (F64.finite 0) = F64.finite 0) :
    (∀ x, F64.lt x (F64.finite 0) = true → MathModule.sqrt I x = F64.nan)
    ∧ MathModule.sqrt I (F64.finite 0) = F64.finite 0
    ∧ MathModule.sqrt I (F64.finite 4) = F64.finite 2
    ∧ (∀ x, F64.le x (F64.finite 0) = true → MathModule.log I x = F64.nan)
    ∧ MathModule.log I (F64.finite 1) = F64.finite 0
    ∧ MathModule.exp I (F64.finite 0) = F64.finite 1
    ∧ (∀ x, F64.lt (F64.abs (I.cos x)) epsF64 = true →
        MathModule.tan I x = F64.nan)
    ∧ (F64.lt (F64.abs (I.cos piHalfF64)) epsF64 = true →
        MathModule.tan I piHalfF64 = F64.nan)
    ∧ MathModule.tan I (F64.finite 0) = F64.finite 0 := by
  refine ⟨?_, ?_, ?_, ?_, ?_, ?_, ?_, ?_, ?_⟩
  · intro x hx
    simp [MathModule.sqrt, hx]
  · have : F64.lt (F64.finite 0) (F64.finite 0) = false := by
      simp [F64.lt]
    simp [MathModule.sqrt, this, hs0]
  · have : F64.lt (F64.finite 4) (F64.finite 0) = false := by
      norm_num [F64.lt]
    simp [MathModule.sqrt, this, hs4]
  · intro x hx
    simp [MathModule.log, hx]
  · have : F64.le (F64.finite 1) (F64.finite 0) = false := by
      norm_num [F64.le]
    simp [MathModule.log, this, hl1]
  · exact he0
  · intro x hx
    simp [MathModule.tan, hx]
  · intro hx
    simp [MathModule.tan, hx]
  · have : F64.lt (F64.abs (I.cos (F64.finite 0))) epsF64 = false := by
      rw [hc0]
      norm_num [F64.lt, F64.abs, epsF64]
    simp [MathModule.tan, this, ht0]

/-- Witness for C9: the reference intrinsics instantiate every hypothesis,
giving the spec's sample evaluations, including `tan` at the float nearest
π/2 (whose cosine is below `f64::EPSILON`). -/
theorem math_domain_policy_witness :
    MathModule.sqrt refIntrinsics (F64.finite (-1)) = F64.nan
    ∧ MathModule.sqrt refIntrinsics (F64.finite 0) = F64.finite 0
    ∧ MathModule.sqrt refIntrinsics (F64.finite 4) = F64.finite 2
    ∧ MathModule.log refIntrinsics (F64.finite 0) = F64.nan
    ∧ MathModule.log refIntrinsics (F64.finite (-1)) = F64.nan
    ∧ MathModule.log refIntrinsics (F64.finite 1) = F64.finite 0
    ∧ MathModule.exp refIntrinsics (F64.finite 0) = F64.finite 1
    ∧ MathModule.tan refIntrinsics piHalfF64 = F64.nan
    ∧ MathModule.tan refIntrinsics (F64.finite 0) = F64.finite 0 := by
  have h := math_domain_policy refIntrinsics
    (by norm_num [refIntrinsics])
    (by norm_num [refIntrinsics])
    (by norm_num [refIntrinsics])
    (by norm_num [refIntrinsics])
    (by norm_num [refIntrinsics, piHalfF64])
    (by norm_num [refIntrinsics])
  refine ⟨h.1 _ (by norm_num [F64.lt]), h.2.1, h.2.2.1,
    h.2.2.2.1 _ (by norm_num [F64.le]), h.2.2.2.1 _ (by norm_num [F64.le]),
    h.2.2.2.2.1, h.2.2.2.2.2.1, ?_, h.2.2.2.2.2.2.2.2⟩
  exact h.2.2.2.2.2.2.2.1
    (by norm_num [refIntrinsics, F64.abs, F64.lt, epsF64, abs_of_pos])

/-- No arm of the scanning loop ever emits a `BeginSection`, `EndSection`
or `Comment` token. -/
theorem tokenizeAux_no_section_or_comment (cs : List Char) (t : Token)
    (ht : t ∈ tokenizeAux cs) :
    (∀ s, t ≠ Token.BeginSection s) ∧ (∀ s, t ≠ Token.EndSection s)
    ∧ (∀ s, t ≠ Token.Comment s) := by
  induction cs using tokenizeAux.induct with
  | case1 =>
    simp [tokenizeAux] at ht
  | case2 c rest hw ih =>
    rw [tokenizeAux, if_pos hw] at ht
    exact ih ht
  | case3 c rest h1 h2 ih =>
    rw [tokenizeAux, if_neg h1, if_pos h2] at ht
    rcases List.mem_cons.mp ht with rfl | ht
    · exact ⟨fun s => by simp, fun s => by simp, fun s => by simp⟩
    · exact ih ht
  | case4 c rest h1 h2 h3 ih =>
    rw [tokenizeAux, if_neg h1, if_neg h2, if_pos h3] at ht
    rcases List.mem_cons.mp ht with rfl | ht
    · exact ⟨fun s => by simp, fun s => by simp, fun s => by simp⟩
    · exact ih ht
  | case5 rest h1 h2 h3 ih =>
    rw [tokenizeAux, if_neg h1, if_neg h2, if_neg h3, if_pos rfl] at ht
    rcases List.mem_cons.mp ht with rfl | ht
    · exact ⟨fun s => by simp, fun s => by simp, fun s => by simp⟩
    · exact ih ht
  | case6 c rest h1 h2 h3 h4 h5 ih =>
    rw [tokenizeAux, if_neg h1, if_neg h2, if_neg h3, if_neg h4,
      if_pos h5] at ht
    dsimp only [] at ht
    cases hp : parseF64 (c :: rest.takeWhile isNumChar) with
    | some v =>
      rw [hp] at ht
      rcases List.mem_cons.mp ht with rfl | ht
      · exact ⟨fun s => by simp, fun s => by simp, fun s => by simp⟩
      · exact ih ht
    | none =>
      rw [hp] at ht
      rcases List.mem_cons.mp ht with rfl | ht
      · exact ⟨fun s => by simp, fun s => by simp, fun s => by simp⟩
      · exact ih ht
  | case7 c rest h1 h2 h3 h4 h5 h6 ih =>
    rw [tokenizeAux, if_neg h1, if_neg h2, if_neg h3, if_neg h4,
      if_neg h5, if_pos h6] at ht
    rcases List.mem_cons.mp ht with rfl | ht
    · refine ⟨fun s => ?_, fun s => ?_, fun s => ?_⟩ <;> split <;> simp
    · exact ih ht
  | case8 c rest h1 h2 h3 h4 h5 h6 ih =>
    rw [tokenizeAux, if_neg h1, if_neg h2, if_neg h3, if_neg h4,
      if_neg h5, if_neg h6] at ht
    rcases List.mem_cons.mp ht with rfl | ht
    · exact ⟨fun s => by simp, fun s => by simp, fun s => by simp⟩
    · exact ih ht

/-- C10: for every input text, the token sequence returned by `tokenize`
contains no `BeginSection`, `EndSection` or `Comment` token: the `Token`
type declares these variants, but no arm of the lexer produces them. -/
theorem tokenize_no_section_or_comment (source : String) (t : Token)
    (ht : t ∈ tokenize source) :
    (∀ s, t ≠ Token.BeginSection s) ∧ (∀ s, t ≠ Token.EndSection s)
    ∧ (∀ s, t ≠ Token.Comment s) := by
  exact tokenizeAux_no_section_or_comment source.toList t ht

/-- Witness for C10 at the source text `BEGIN SECTION "x"`: its first token
is the ordinary identifier "BEGIN", which is none of the section or comment
variants. -/
theorem tokenize_no_section_or_comment_witness :
    Token.Identifier "BEGIN" ∈ tokenize "BEGIN SECTION \x22x\x22"
    ∧ Token.Identifier "BEGIN" ≠ Token.BeginSection "BEGIN"
    ∧ Token.Identifier "BEGIN" ≠ Token.EndSection "BEGIN"
    ∧ Token.Identifier "BEGIN" ≠ Token.Comment "BEGIN" := by
  have hmem : Token.Identifier "BEGIN" ∈ tokenize "BEGIN SECTION \x22x\x22" := by
    simp [tokenize, tokenizeAux, isIdentChar, String.mk]
  have h := tokenize_no_section_or_comment "BEGIN SECTION \x22x\x22"
    (Token.Identifier "BEGIN") hmem
  exact ⟨hmem, h.1 "BEGIN", h.2.1 "BEGIN", h.2.2 "BEGIN"⟩
